import Mathlib

/-!
Verification of `saphir/src/file/mod.rs`: the chunked file stream (`FileStream`),
the two-phase seek adapter (`File`'s `AsyncSeek`), `set_range`, the metadata
accessors, and the `Responder` header assembly.

The asynchronous I/O is embedded by making every OS interaction explicit: a
`poll_read` call is driven by an oracle (`IoStep`) saying how many bytes the OS
offers, or that it fails or is pending; the honest file itself is a byte list
with a cursor.  Machine integers (`u64` / `usize`) are modelled as `Nat`; the
one place where unsigned subtraction can underflow (`end - start` in
`set_range`) is modelled with a checked subtraction and an explicit underflow
outcome.
-/

namespace Saphir

/-- The constant `pub const MAX_BUFFER: usize = 65534` bounding the read buffer
of the windowless streaming loop. -/
def MAX_BUFFER : Nat := 65534

/-- An honest seekable byte resource: the file's byte contents together with
the current cursor offset.  Bytes are abstracted as natural numbers. -/
structure Source where
  contents : List Nat
  pos : Nat
  deriving DecidableEq

/-- Outcome the operating system offers to one `poll_read` call: `ok n` means
the OS is willing to transfer up to `n` bytes in this call (the actual count is
further limited by the caller's buffer length and the bytes remaining in the
file), `error` is an I/O failure, `pending` is `Poll::Pending`. -/
inductive IoStep where
  | ok (n : Nat)
  | error
  | pending
  deriving DecidableEq

/-- One `poll_read` into a buffer of length `buflen` when the OS offers `offer`
bytes: the count transferred is `min (min offer buflen) remaining`, the data is
the slice of the contents at the cursor, and the cursor advances by the count.
A result of `0` mid-file can only happen when the caller's buffer is empty or
the offer is zero; at end of file the count is always `0`. -/
def readFromSource (src : Source) (buflen offer : Nat) : Nat × List Nat × Source :=
  let s := min (min offer buflen) (src.contents.length - src.pos)
  (s, (src.contents.drop src.pos).take s, ⟨src.contents, src.pos + s⟩)

/-- The `FileStream` struct: the boxed source, the accumulation `buffer`, the
`end_of_file` flag, the optional window length `range_len` (set by `set_range`)
and the cumulative `amount_read` used by the windowed loop. -/
structure FileStream where
  src : Source
  buffer : List Nat
  end_of_file : Bool
  range_len : Option Nat
  amount_read : Nat
  deriving DecidableEq

/-- `FileStream::new`: empty buffer, `end_of_file = false`, no window,
`amount_read = 0`. -/
def FileStream.new (src : Source) : FileStream :=
  { src := src, buffer := [], end_of_file := false, range_len := none, amount_read := 0 }

/-- Outcome of the awaited `self.inner.seek(SeekFrom::Start(start))` inside
`set_range`: either the seek lands at the requested offset, or it fails with an
I/O error leaving the cursor at an unspecified offset `p`. -/
inductive SeekResult where
  | ok
  | fail (p : Nat)
  deriving DecidableEq

/-- Checked 64-bit unsigned subtraction: `a - b` when it does not underflow,
`none` when the Rust `u64` subtraction would underflow (an abort in debug
builds). -/
def u64checkedSub (a b : Nat) : Option Nat :=
  if b ≤ a then some (a - b) else none

/-- Result of `FileStream::set_range`: `Ok(())` with the updated stream, an I/O
error propagated by `?` from the seek (stream fields untouched), or the
debug-build underflow of the `u64` subtraction `end - start`. -/
inductive SetRangeResult where
  | ok (fs : FileStream)
  | ioErr (fs : FileStream)
  | underflow
  deriving DecidableEq

/-- `FileStream::set_range((start, end))`: first `self.inner.seek(Start(start)).await?`
(failure returns before any field of the stream is written), then
`self.range_len = Some(end - start)`. -/
def set_range (fs : FileStream) (start stop : Nat) (sk : SeekResult) : SetRangeResult :=
  match sk with
  | .fail p => .ioErr { fs with src := ⟨fs.src.contents, p⟩ }
  | .ok =>
    match u64checkedSub stop start with
    | some len => .ok { fs with src := ⟨fs.src.contents, start⟩, range_len := some len }
    | none => .underflow

/-- `FileStream::get_size` delegates to the inner file's `get_size`. -/
def FileStream.get_size (sizeOfInner : Nat) : Nat := sizeOfInner

/-- Result of one `poll_next` call: a data chunk (`Poll::Ready(Some(Ok(..)))`),
an I/O error item (`Poll::Ready(Some(Err(..)))`), end of sequence
(`Poll::Ready(None)`), or `Poll::Pending`. -/
inductive PollNext where
  | chunk (data : List Nat)
  | ioError
  | eos
  | pend
  deriving DecidableEq

/-- Body of one successful read iteration of the windowless loop
(`poll_next`, `else` branch): read into a buffer of length `MAX_BUFFER`; if
`s > 0` extend `self.buffer` with the bytes read; set `end_of_file = (s == 0)`. -/
def unrangedStep (fs : FileStream) (n : Nat) : FileStream :=
  let r := readFromSource fs.src MAX_BUFFER n
  { fs with
    src := r.2.2
    buffer := if 0 < r.1 then fs.buffer ++ r.2.1 else fs.buffer
    end_of_file := r.1 == 0 }

/-- Body of one successful read iteration of the windowed loop (`poll_next`,
`if let Some(range_len)` branch): read into a buffer of length `usize_range`;
if `s + amount_read <= usize_range`, append the `s` bytes, add `s` to
`amount_read` and set `end_of_file = (s == 0 || amount_read == usize_range)`;
otherwise append only the first `usize_range - amount_read` bytes (leaving
`amount_read` unchanged) and set `end_of_file = true`. -/
def rangedStep (fs : FileStream) (usizeRange n : Nat) : FileStream :=
  let r := readFromSource fs.src usizeRange n
  if r.1 + fs.amount_read ≤ usizeRange then
    { fs with
      src := r.2.2
      buffer := fs.buffer ++ r.2.1
      amount_read := fs.amount_read + r.1
      end_of_file := (r.1 == 0) || (fs.amount_read + r.1 == usizeRange) }
  else
    { fs with
      src := r.2.2
      buffer := fs.buffer ++ r.2.1.take (usizeRange - fs.amount_read)
      end_of_file := true }

/-- The windowless `while self.buffer.len() < MAX_BUFFER && !self.end_of_file`
loop of `poll_next`, driven by the oracle one read per iteration.  Exiting the
loop yields `Bytes::from(mem::take(&mut self.buffer))`; an error or pending
read returns immediately, keeping all state changes made so far. -/
def pollLoopUnranged : FileStream → List IoStep → PollNext × FileStream × List IoStep
  | fs, [] =>
    if fs.buffer.length < MAX_BUFFER ∧ fs.end_of_file = false then (.pend, fs, [])
    else (.chunk fs.buffer, { fs with buffer := [] }, [])
  | fs, st :: rest =>
    if fs.buffer.length < MAX_BUFFER ∧ fs.end_of_file = false then
      match st with
      | .ok n => pollLoopUnranged (unrangedStep fs n) rest
      | .error => (.ioError, fs, rest)
      | .pending => (.pend, fs, rest)
    else (.chunk fs.buffer, { fs with buffer := [] }, st :: rest)

/-- The windowed `while self.amount_read < usize_range && !self.end_of_file`
loop of `poll_next`, driven by the oracle one read per iteration. -/
def pollLoopRanged (usizeRange : Nat) : FileStream → List IoStep → PollNext × FileStream × List IoStep
  | fs, [] =>
    if fs.amount_read < usizeRange ∧ fs.end_of_file = false then (.pend, fs, [])
    else (.chunk fs.buffer, { fs with buffer := [] }, [])
  | fs, st :: rest =>
    if fs.amount_read < usizeRange ∧ fs.end_of_file = false then
      match st with
      | .ok n => pollLoopRanged usizeRange (rangedStep fs usizeRange n) rest
      | .error => (.ioError, fs, rest)
      | .pending => (.pend, fs, rest)
    else (.chunk fs.buffer, { fs with buffer := [] }, st :: rest)

/-- `<FileStream as Stream>::poll_next`: if `end_of_file` return
`Poll::Ready(None)`; otherwise run the windowed loop when `range_len` is set,
else the windowless loop.  Returns the poll result, the updated stream and the
unconsumed oracle suffix. -/
def poll_next (fs : FileStream) (oracle : List IoStep) : PollNext × FileStream × List IoStep :=
  if fs.end_of_file = true then (.eos, fs, oracle)
  else
    match fs.range_len with
    | some r => pollLoopRanged r fs oracle
    | none => pollLoopUnranged fs oracle

/-- Drive a stream: call `poll_next` up to `fuel` times, collecting the yielded
items, stopping at end-of-sequence or at a pending poll. -/
def drive : FileStream → List IoStep → Nat → List PollNext × FileStream
  | fs, _, 0 => ([], fs)
  | fs, oracle, fuel + 1 =>
    match poll_next fs oracle with
    | (.chunk data, fs2, rest) =>
      let r := drive fs2 rest fuel
      (.chunk data :: r.1, r.2)
    | (.ioError, fs2, rest) =>
      let r := drive fs2 rest fuel
      (.ioError :: r.1, r.2)
    | (.eos, fs2, _) => ([], fs2)
    | (.pend, fs2, _) => ([], fs2)

/-- Data bytes carried by one yielded item. -/
def chunkData : PollNext → List Nat
  | .chunk data => data
  | _ => []

/-- All data bytes yielded by a run, in order. -/
def bytesOf (items : List PollNext) : List Nat :=
  (items.map chunkData).flatten

/-- An oracle made only of successful reads offering at least one byte each
(the behaviour of an OS read on an unchanged regular file). -/
def honestPos (oracle : List IoStep) : Prop :=
  ∀ st ∈ oracle, ∃ n, st = IoStep.ok n ∧ 1 ≤ n

/-- An oracle made only of successful reads each offering at least a full
buffer (reads are never short). -/
def honestFull (oracle : List IoStep) : Prop :=
  ∀ st ∈ oracle, ∃ n, st = IoStep.ok n ∧ MAX_BUFFER ≤ n

/-- Outcome of `start_seek` on the inner tokio file. -/
inductive SeekStartStep where
  | ok
  | error
  | pending
  deriving DecidableEq

/-- Outcome of `poll_complete` on the inner tokio file. -/
inductive SeekCompleteStep where
  | ok (n : Nat)
  | error
  | pending
  deriving DecidableEq

/-- Result of one `poll_seek` call on `File`. -/
inductive SeekPoll where
  | readyOk (n : Nat)
  | readyErr
  | pending
  deriving DecidableEq

/-- The completion phase of `<File as AsyncSeek>::poll_seek`: on
`Poll::Ready` (success or failure) the `seek_has_started` flag is cleared; on
`Poll::Pending` it stays set.  Returns the poll result and the new flag. -/
def poll_complete : SeekCompleteStep → SeekPoll × Bool
  | .ok n => (.readyOk n, false)
  | .error => (.readyErr, false)
  | .pending => (.pending, true)

/-- `<File as AsyncSeek>::poll_seek`: when `seek_has_started` is not set, run
`start_seek` first (an error or pending there returns with the flag still
clear); once the request phase has succeeded — now or in an earlier call — poll
the completion phase. -/
def poll_seek (seek_has_started : Bool) (s : SeekStartStep) (c : SeekCompleteStep) : SeekPoll × Bool :=
  if seek_has_started then poll_complete c
  else
    match s with
    | .ok => poll_complete c
    | .error => (.readyErr, false)
    | .pending => (.pending, false)

/-- The response builder at the boundary: status, body and an ordered header
list.  `Builder::header` appends a header. -/
structure Builder where
  statusCode : Option Nat
  bodyContent : Option String
  headers : List (String × String)
  deriving DecidableEq

/-- `Builder::status`. -/
def Builder.status (b : Builder) (n : Nat) : Builder := { b with statusCode := some n }

/-- `Builder::body`. -/
def Builder.body (b : Builder) (s : String) : Builder := { b with bodyContent := some s }

/-- `Builder::header`: append the header pair. -/
def Builder.header (b : Builder) (k v : String) : Builder := { b with headers := b.headers ++ [(k, v)] }

/-- Metadata of the resource behind a stream, as read by the `Responder`
implementations: the stored MIME (`get_mime`), the MIME looked up from the path
extension (`path.mime()`), the directory test (`path.is_dir()`), and the size
reported by `get_size`. -/
structure ResourceMeta where
  mime : Option String
  pathMime : Option String
  isDir : Bool
  size : Nat
  deriving DecidableEq

/-- The MIME string chosen by `respond_with_builder`: the stored MIME if any,
else the path-extension MIME, else `text/html; charset=utf-8` for a directory
and `text/plain; charset=utf-8` otherwise. -/
def resolveMime (meta : ResourceMeta) : String :=
  match meta.mime with
  | some m => m
  | none =>
    match meta.pathMime with
    | some m => m
    | none => if meta.isDir then "text/html; charset=utf-8" else "text/plain; charset=utf-8"

/-- `<FileStream as Responder>::respond_with_builder`.  `meta` models what the
body reads from `self.inner` (`get_mime`, `get_path().mime()`,
`get_path().is_dir()`, `get_size`), `range_len` is the stream's window length
(present in `self` but, notably, never read by this function), and `fileOk` is
the outcome of the out-of-scope `builder.file(self)` call. -/
def FileStream.respond_with_builder (meta : ResourceMeta) (range_len : Option Nat)
    (builder : Builder) (fileOk : Bool) : Builder :=
  let mime := resolveMime meta
  let len := meta.size
  let b := if fileOk then builder else (builder.status 500).body "Unable to read file"
  ((b.header "accept-ranges" "bytes").header "content-type" mime).header
    "content-length" (toString len)

/-- Modelled from the spec: `PathExt::size` is declared in the absent
`file/middleware.rs`; per the spec a resource's size is "queried lazily from
the filesystem", so the filesystem is modelled as a map from paths to current
sizes and `path.size()` reads it at call time. -/
def FsState := String → Nat

/-- `path.size()` (see `FsState`): the size the filesystem currently reports
for the path. -/
def pathSize (fsS : FsState) (p : String) : Nat := fsS p

/-- The `File` struct fields read by the `FileInfo` accessors (`PathBuf`
modelled as the path string). -/
structure FileModel where
  path : String
  mime : Option String
  seek_has_started : Bool
  deriving DecidableEq

/-- `<File as FileInfo>::get_path`: returns the stored path. -/
def FileModel.get_path (f : FileModel) : String := f.path

/-- `<File as FileInfo>::get_mime`: returns the stored MIME. -/
def FileModel.get_mime (f : FileModel) : Option String := f.mime

/-- `<File as FileInfo>::get_size`: `self.path.size()` — a fresh filesystem
query on every call. -/
def FileModel.get_size (fsS : FsState) (f : FileModel) : Nat := pathSize fsS f.path

/-- Concrete windowed stream used to exhibit an over-`MAX_BUFFER` chunk: a
65535-byte file with the window `[0, 65535)` already set. -/
def fsBig : FileStream :=
  ⟨⟨List.replicate 65535 0, 0⟩, [], false, some 65535, 0⟩

/-- Oracle of always-successful reads for the `fsBig` run. -/
def bigOracle : List IoStep := List.replicate 65535 (IoStep.ok 65535)

/-! ### Helper lemmas -/

/-- When the windowed loop's guard fails, the loop exits at once, yielding the
accumulated buffer and emptying it. -/
lemma pollLoopRanged_exit (usizeRange : Nat) (fs : FileStream) (oracle : List IoStep)
    (h : ¬ (fs.amount_read < usizeRange ∧ fs.end_of_file = false)) :
    pollLoopRanged usizeRange fs oracle = (.chunk fs.buffer, { fs with buffer := [] }, oracle) := by
  cases oracle <;> simp [pollLoopRanged, h]

/-- When the windowless loop's guard fails, the loop exits at once, yielding
the accumulated buffer and emptying it. -/
lemma pollLoopUnranged_exit (fs : FileStream) (oracle : List IoStep)
    (h : ¬ (fs.buffer.length < MAX_BUFFER ∧ fs.end_of_file = false)) :
    pollLoopUnranged fs oracle = (.chunk fs.buffer, { fs with buffer := [] }, oracle) := by
  cases oracle <;> simp [pollLoopUnranged, h]

/-- `poll_next` on a live windowed stream is the windowed loop. -/
lemma poll_next_ranged (fs : FileStream) (r : Nat) (oracle : List IoStep)
    (heof : fs.end_of_file = false) (hr : fs.range_len = some r) :
    poll_next fs oracle = pollLoopRanged r fs oracle := by
  simp [poll_next, heof, hr]

/-- `poll_next` on a live windowless stream is the windowless loop. -/
lemma poll_next_unranged (fs : FileStream) (oracle : List IoStep)
    (heof : fs.end_of_file = false) (hr : fs.range_len = none) :
    poll_next fs oracle = pollLoopUnranged fs oracle := by
  simp [poll_next, heof, hr]

/-- A stream whose `end_of_file` flag is set yields nothing when driven. -/
lemma drive_eof (fs : FileStream) (oracle : List IoStep) (fuel : Nat)
    (h : fs.end_of_file = true) :
    drive fs oracle fuel = ([], fs) := by
  cases fuel with
  | zero => rfl
  | succ f => simp [drive, poll_next, h]

/-- Unfolding one driving step that yields a chunk. -/
lemma drive_chunk (fs fs2 : FileStream) (oracle rest : List IoStep) (data : List Nat) (fuel : Nat)
    (h : poll_next fs oracle = (.chunk data, fs2, rest)) :
    drive fs oracle (fuel + 1)
      = (PollNext.chunk data :: (drive fs2 rest fuel).1, (drive fs2 rest fuel).2) := by
  simp [drive, h]

/-- Running the windowed loop from a partially-filled consistent state with an
all-successful, all-progressing oracle long enough to fill the window: the loop
yields the whole window `[start, start + usizeRange)` as one chunk and leaves
the stream exhausted. -/
lemma pollLoopRanged_run (contents : List Nat) (start usizeRange : Nat)
    (hsz : start + usizeRange ≤ contents.length) :
    ∀ (oracle : List IoStep) (k : Nat),
      honestPos oracle →
      k < usizeRange →
      usizeRange - k ≤ oracle.length →
      ∃ fsF rest,
        pollLoopRanged usizeRange
            ⟨⟨contents, start + k⟩, (contents.drop start).take k, false, some usizeRange, k⟩
            oracle
          = (PollNext.chunk ((contents.drop start).take usizeRange), fsF, rest) ∧
        fsF.end_of_file = true := by
  intro oracle
  induction oracle with
  | nil =>
    intro k _ hk hlen
    simp only [List.length_nil] at hlen
    omega
  | cons st rest ih =>
    intro k hhon hk hlen
    obtain ⟨n, hst, hn⟩ := hhon st (List.mem_cons_self st rest)
    subst hst
    have hguard : (⟨⟨contents, start + k⟩, (contents.drop start).take k, false,
        some usizeRange, k⟩ : FileStream).amount_read < usizeRange ∧
        (⟨⟨contents, start + k⟩, (contents.drop start).take k, false,
        some usizeRange, k⟩ : FileStream).end_of_file = false := ⟨hk, rfl⟩
    rw [pollLoopRanged, if_pos hguard]
    set s := min (min n usizeRange) (contents.length - (start + k)) with hs
    have h1u : 1 ≤ usizeRange := by omega
    have hrem1 : 1 ≤ contents.length - (start + k) := by omega
    have hs1 : 1 ≤ s := le_min (le_min hn h1u) hrem1
    have hsu : s ≤ usizeRange := le_trans (min_le_left _ _) (min_le_right _ _)
    have hsr : s ≤ contents.length - (start + k) := min_le_right _ _
    have hbeq : (s == 0) = false := by
      simp only [beq_eq_false_iff_ne, ne_eq]
      omega
    have hdata : (contents.drop (start + k)).take s
        = ((contents.drop start).drop k).take s := by
      rw [List.drop_drop]
    by_cases hc : s + k ≤ usizeRange
    · have hstep : rangedStep
          ⟨⟨contents, start + k⟩, (contents.drop start).take k, false, some usizeRange, k⟩
          usizeRange n
          = ⟨⟨contents, start + (k + s)⟩, (contents.drop start).take (k + s),
             (s == 0) || (k + s == usizeRange), some usizeRange, k + s⟩ := by
        simp only [rangedStep, readFromSource, ← hs]
        rw [if_pos (by simpa using hc)]
        simp only [FileStream.mk.injEq, Source.mk.injEq, true_and, and_true]
        refine ⟨by omega, ?_⟩
        rw [hdata, ← List.take_add]
      rw [hstep]
      by_cases heq : k + s = usizeRange
      · rw [pollLoopRanged_exit _ _ _ (by
          simp only [not_and]
          intro hlt
          omega)]
        refine ⟨⟨⟨contents, start + (k + s)⟩, [], (s == 0) || (k + s == usizeRange),
          some usizeRange, k + s⟩, rest, ?_, ?_⟩
        · simp [heq]
        · simp [hbeq, heq]
      · have heof : ((s == 0) || (k + s == usizeRange)) = false := by
          simp only [hbeq, Bool.false_or, beq_eq_false_iff_ne, ne_eq]
          exact heq
        rw [heof]
        have := ih (k + s) (fun st2 h2 => hhon st2 (List.mem_cons_of_mem _ h2))
          (by omega) (by simp only [List.length_cons] at hlen; omega)
        exact this
    · have hstep : rangedStep
          ⟨⟨contents, start + k⟩, (contents.drop start).take k, false, some usizeRange, k⟩
          usizeRange n
          = ⟨⟨contents, start + k + s⟩, (contents.drop start).take usizeRange,
             true, some usizeRange, k⟩ := by
        simp only [rangedStep, readFromSource, ← hs]
        rw [if_neg (by simpa using hc)]
        simp only [FileStream.mk.injEq, Source.mk.injEq, true_and, and_true]
        rw [hdata, List.take_take, min_eq_left (by omega : usizeRange - k ≤ s),
          ← List.take_add]
        congr 1
        omega
      rw [hstep]
      rw [pollLoopRanged_exit _ _ _ (by simp)]
      exact ⟨_, rest, rfl, rfl⟩

/-- A full read in the windowless loop: with at least `MAX_BUFFER` bytes
remaining and an offer of at least `MAX_BUFFER`, one poll yields exactly a
`MAX_BUFFER`-byte chunk and leaves the stream ready at the advanced cursor. -/
lemma pollLoopUnranged_step_full (contents : List Nat) (pos ar n : Nat) (rest : List IoStep)
    (hn : MAX_BUFFER ≤ n) (hrem : MAX_BUFFER ≤ contents.length - pos) :
    pollLoopUnranged ⟨⟨contents, pos⟩, [], false, none, ar⟩ (IoStep.ok n :: rest)
      = (.chunk ((contents.drop pos).take MAX_BUFFER),
         ⟨⟨contents, pos + MAX_BUFFER⟩, [], false, none, ar⟩, rest) := by
  have hs : min (min n MAX_BUFFER) (contents.length - pos) = MAX_BUFFER := by
    rw [min_eq_right hn, min_eq_left hrem]
  have hB : 0 < MAX_BUFFER := by norm_num [MAX_BUFFER]
  have hstep : unrangedStep ⟨⟨contents, pos⟩, [], false, none, ar⟩ n
      = ⟨⟨contents, pos + MAX_BUFFER⟩, (contents.drop pos).take MAX_BUFFER, false, none, ar⟩ := by
    simp only [unrangedStep, readFromSource, hs]
    simp [hB, Nat.pos_iff_ne_zero.mp hB]
  rw [pollLoopUnranged, if_pos ⟨by simpa using hB, rfl⟩, hstep]
  rw [pollLoopUnranged_exit _ _ (by
    simp only [not_and, List.length_take, List.length_drop]
    intro hlt
    omega)]

/-- A read at end of file in the windowless loop: the zero-byte read sets
`end_of_file` and the empty buffer is yielded as an empty chunk. -/
lemma pollLoopUnranged_step_eof (contents : List Nat) (pos ar n : Nat) (rest : List IoStep)
    (hrem : contents.length ≤ pos) :
    pollLoopUnranged ⟨⟨contents, pos⟩, [], false, none, ar⟩ (IoStep.ok n :: rest)
      = (.chunk [], ⟨⟨contents, pos⟩, [], true, none, ar⟩, rest) := by
  have hB : 0 < MAX_BUFFER := by norm_num [MAX_BUFFER]
  have hs : min (min n MAX_BUFFER) (contents.length - pos) = 0 := by
    rw [Nat.sub_eq_zero_of_le hrem]
    exact min_eq_right (Nat.zero_le _)
  have hstep : unrangedStep ⟨⟨contents, pos⟩, [], false, none, ar⟩ n
      = ⟨⟨contents, pos⟩, [], true, none, ar⟩ := by
    simp only [unrangedStep, readFromSource, hs]
    simp
  rw [pollLoopUnranged, if_pos ⟨by simpa using hB, rfl⟩, hstep]
  rw [pollLoopUnranged_exit _ _ (by simp)]

/-- A short read before end of file in the windowless loop: fewer than
`MAX_BUFFER` bytes remain and the OS offers them all, so the first read
collects the whole tail, the second read returns zero bytes and sets
`end_of_file`, and the collected tail is yielded. -/
lemma pollLoopUnranged_step_short (contents : List Nat) (pos ar n n2 : Nat) (rest : List IoStep)
    (hpos : pos < contents.length) (hshort : contents.length - pos < MAX_BUFFER)
    (hn : contents.length - pos ≤ n) :
    pollLoopUnranged ⟨⟨contents, pos⟩, [], false, none, ar⟩
        (IoStep.ok n :: IoStep.ok n2 :: rest)
      = (.chunk (contents.drop pos),
         ⟨⟨contents, contents.length⟩, [], true, none, ar⟩, rest) := by
  have hB : 0 < MAX_BUFFER := by norm_num [MAX_BUFFER]
  have hs : min (min n MAX_BUFFER) (contents.length - pos)
      = contents.length - pos :=
    min_eq_right (le_min hn (le_of_lt hshort))
  have htail : (contents.drop pos).take (contents.length - pos) = contents.drop pos := by
    rw [← List.length_drop pos contents]
    exact List.take_length _
  have hstep : unrangedStep ⟨⟨contents, pos⟩, [], false, none, ar⟩ n
      = ⟨⟨contents, contents.length⟩, contents.drop pos, false, none, ar⟩ := by
    simp only [unrangedStep, readFromSource, hs]
    simp [htail]
    omega
  rw [pollLoopUnranged, if_pos ⟨by simpa using hB, rfl⟩, hstep]
  have hs2 : min (min n2 MAX_BUFFER) (contents.length - contents.length) = 0 := by
    simp
  have hstep2 : unrangedStep ⟨⟨contents, contents.length⟩, contents.drop pos, false, none, ar⟩ n2
      = ⟨⟨contents, contents.length⟩, contents.drop pos, true, none, ar⟩ := by
    simp only [unrangedStep, readFromSource, hs2]
    simp
  rw [pollLoopUnranged, if_pos ⟨by
    simp only [List.length_drop]
    omega, rfl⟩, hstep2]
  rw [pollLoopUnranged_exit _ _ (by simp)]

/-- A short read with an exhausted oracle: the loop makes the partial read and
then reports pending, yielding no item and keeping the collected bytes. -/
lemma pollLoopUnranged_step_short_pend (contents : List Nat) (pos ar n : Nat)
    (hpos : pos < contents.length) (hshort : contents.length - pos < MAX_BUFFER)
    (hn : contents.length - pos ≤ n) :
    pollLoopUnranged ⟨⟨contents, pos⟩, [], false, none, ar⟩ [IoStep.ok n]
      = (.pend, ⟨⟨contents, contents.length⟩, contents.drop pos, false, none, ar⟩, []) := by
  have hB : 0 < MAX_BUFFER := by norm_num [MAX_BUFFER]
  have hs : min (min n MAX_BUFFER) (contents.length - pos)
      = contents.length - pos :=
    min_eq_right (le_min hn (le_of_lt hshort))
  have htail : (contents.drop pos).take (contents.length - pos) = contents.drop pos := by
    rw [← List.length_drop pos contents]
    exact List.take_length _
  have hstep : unrangedStep ⟨⟨contents, pos⟩, [], false, none, ar⟩ n
      = ⟨⟨contents, contents.length⟩, contents.drop pos, false, none, ar⟩ := by
    simp only [unrangedStep, readFromSource, hs]
    simp [htail]
    omega
  rw [pollLoopUnranged, if_pos ⟨by simpa using hB, rfl⟩, hstep]
  rw [pollLoopUnranged, if_pos ⟨by
    simp only [List.length_drop]
    omega, rfl⟩]

/-- The windowless loop only ever grows the buffer, so a chunk it yields is at
least as long as the buffer the loop started from. -/
lemma pollLoopUnranged_chunk_len :
    ∀ (oracle : List IoStep) (fs : FileStream) (data : List Nat) (fs2 : FileStream)
      (rest : List IoStep),
      pollLoopUnranged fs oracle = (.chunk data, fs2, rest) →
      fs.buffer.length ≤ data.length := by
  intro oracle
  induction oracle with
  | nil =>
    intro fs data fs2 rest h
    simp only [pollLoopUnranged] at h
    split_ifs at h
    · simp at h
    · obtain ⟨h1, -, -⟩ := Prod.mk.injEq .. ▸ h
      simp only [PollNext.chunk.injEq] at h1
      exact h1 ▸ le_refl _
  | cons st rest ih =>
    intro fs data fs2 rest2 h
    simp only [pollLoopUnranged] at h
    split_ifs at h
    · cases st with
      | ok n =>
        have hlen := ih _ _ _ _ h
        refine le_trans ?_ hlen
        simp only [unrangedStep]
        split_ifs
        · simp
        · exact le_refl _
      | error => simp at h
      | pending => simp at h
    · obtain ⟨h1, -, -⟩ := Prod.mk.injEq .. ▸ h
      simp only [PollNext.chunk.injEq] at h1
      exact h1 ▸ le_refl _

/-- Driving a windowless stream from a fresh-buffer state with an oracle of
never-short reads: every yielded item is a chunk of at most `MAX_BUFFER`
bytes. -/
lemma drive_unranged_full_bound (contents : List Nat) :
    ∀ (fuel : Nat) (pos ar : Nat) (oracle : List IoStep), honestFull oracle →
      ∀ item ∈ (drive ⟨⟨contents, pos⟩, [], false, none, ar⟩ oracle fuel).1,
        ∃ data, item = PollNext.chunk data ∧ data.length ≤ MAX_BUFFER := by
  intro fuel
  induction fuel with
  | zero =>
    intro pos ar oracle hhon item hitem
    simp [drive] at hitem
  | succ f ih =>
    intro pos ar oracle hhon item hitem
    have hB : 0 < MAX_BUFFER := by norm_num [MAX_BUFFER]
    cases oracle with
    | nil =>
      have hpoll : poll_next (⟨⟨contents, pos⟩, [], false, none, ar⟩ : FileStream) []
          = (.pend, ⟨⟨contents, pos⟩, [], false, none, ar⟩, []) := by
        simp only [poll_next]
        rw [if_neg (by simp)]
        simp only [pollLoopUnranged]
        rw [if_pos (by norm_num [MAX_BUFFER])]
      simp [drive, hpoll] at hitem
    | cons st rest =>
      obtain ⟨n, hst, hn⟩ := hhon st (List.mem_cons_self st rest)
      subst hst
      have hhon2 : honestFull rest := fun st2 h2 => hhon st2 (List.mem_cons_of_mem _ h2)
      by_cases hrem : MAX_BUFFER ≤ contents.length - pos
      · have hpoll : poll_next (⟨⟨contents, pos⟩, [], false, none, ar⟩ : FileStream)
            (IoStep.ok n :: rest)
            = (.chunk ((contents.drop pos).take MAX_BUFFER),
               ⟨⟨contents, pos + MAX_BUFFER⟩, [], false, none, ar⟩, rest) := by
          simp only [poll_next]
          rw [if_neg (by simp)]
          exact pollLoopUnranged_step_full contents pos ar n rest hn hrem
        rw [drive_chunk _ _ _ _ _ _ hpoll] at hitem
        simp only [List.mem_cons] at hitem
        rcases hitem with hitem | hitem
        · exact ⟨_, hitem, by
            simp only [List.length_take, List.length_drop]
            omega⟩
        · exact ih (pos + MAX_BUFFER) ar rest hhon2 item hitem
      · by_cases hpos : pos < contents.length
        · cases rest with
          | nil =>
            have hpoll : poll_next (⟨⟨contents, pos⟩, [], false, none, ar⟩ : FileStream)
                [IoStep.ok n]
                = (.pend, ⟨⟨contents, contents.length⟩, contents.drop pos, false, none, ar⟩,
                   []) := by
              simp only [poll_next]
              rw [if_neg (by simp)]
              exact pollLoopUnranged_step_short_pend contents pos ar n hpos (by omega)
                (by omega)
            simp [drive, hpoll] at hitem
          | cons st2 rest2 =>
            obtain ⟨n2, hst2, hn2⟩ := hhon2 st2 (List.mem_cons_self st2 rest2)
            subst hst2
            have hpoll : poll_next (⟨⟨contents, pos⟩, [], false, none, ar⟩ : FileStream)
                (IoStep.ok n :: IoStep.ok n2 :: rest2)
                = (.chunk (contents.drop pos),
                   ⟨⟨contents, contents.length⟩, [], true, none, ar⟩, rest2) := by
              simp only [poll_next]
              rw [if_neg (by simp)]
              exact pollLoopUnranged_step_short contents pos ar n n2 rest2 hpos (by omega)
                (by omega)
            rw [drive_chunk _ _ _ _ _ _ hpoll] at hitem
            rw [drive_eof _ _ _ rfl] at hitem
            simp only [List.mem_cons, List.not_mem_nil, or_false] at hitem
            exact ⟨_, hitem, by
              simp only [List.length_drop]
              omega⟩
        · have hpoll : poll_next (⟨⟨contents, pos⟩, [], false, none, ar⟩ : FileStream)
              (IoStep.ok n :: rest)
              = (.chunk [], ⟨⟨contents, pos⟩, [], true, none, ar⟩, rest) := by
            simp only [poll_next]
            rw [if_neg (by simp)]
            exact pollLoopUnranged_step_eof contents pos ar n rest (by omega)
          rw [drive_chunk _ _ _ _ _ _ hpoll] at hitem
          rw [drive_eof _ _ _ rfl] at hitem
          simp only [List.mem_cons, List.not_mem_nil, or_false] at hitem
          exact ⟨[], hitem, by simp⟩

/-- Driving a stream whose window has length zero yields no data bytes, ever:
the loop guard `amount_read < usize_range` is false from the outset, so every
poll returns the empty buffer as an empty chunk. -/
lemma drive_window_zero (contents : List Nat) (start : Nat) :
    ∀ (fuel : Nat) (oracle : List IoStep),
      bytesOf (drive ⟨⟨contents, start⟩, [], false, some 0, 0⟩ oracle fuel).1 = [] := by
  intro fuel
  induction fuel with
  | zero => intro oracle; rfl
  | succ f ih =>
    intro oracle
    have hpoll : poll_next (⟨⟨contents, start⟩, [], false, some 0, 0⟩ : FileStream) oracle
        = (.chunk [], ⟨⟨contents, start⟩, [], false, some 0, 0⟩, oracle) := by
      have hexit := pollLoopRanged_exit 0 (⟨⟨contents, start⟩, [], false, some 0, 0⟩ :
        FileStream) oracle (by simp)
      simpa [poll_next] using hexit
    rw [drive_chunk _ _ _ _ _ _ hpoll]
    simpa [bytesOf, chunkData] using ih oracle

/-! ### Claim theorems -/

/-- Claim C1: for every byte window `(start, stop)` with
`start ≤ stop ≤ size`, a stream on which `set_range` succeeded yields — over
its whole lifetime, however long it is driven — exactly `stop - start` bytes,
in file order, equal to the slice `[start, stop)` of the file's contents
(the oracle hypotheses say the underlying resource is an unchanged regular
file: every read succeeds and offers at least one byte). -/
theorem stream_window_exact (contents : List Nat) (start stop fuel : Nat) (oracle : List IoStep)
    (hse : start ≤ stop) (hes : stop ≤ contents.length)
    (hhon : honestPos oracle) (hlen : stop - start ≤ oracle.length) (hfuel : 1 ≤ fuel) :
    ∃ fs1,
      set_range (FileStream.new ⟨contents, 0⟩) start stop SeekResult.ok = SetRangeResult.ok fs1 ∧
      bytesOf (drive fs1 oracle fuel).1 = (contents.drop start).take (stop - start) ∧
      (bytesOf (drive fs1 oracle fuel).1).length = stop - start := by
  have hsr : set_range (FileStream.new ⟨contents, 0⟩) start stop SeekResult.ok
      = SetRangeResult.ok ⟨⟨contents, start⟩, [], false, some (stop - start), 0⟩ := by
    simp [set_range, u64checkedSub, hse, FileStream.new]
  have hbytes : bytesOf (drive (⟨⟨contents, start⟩, [], false, some (stop - start), 0⟩ :
      FileStream) oracle fuel).1 = (contents.drop start).take (stop - start) := by
    by_cases h0 : stop - start = 0
    · rw [h0]
      simp [drive_window_zero contents start fuel oracle]
    · obtain ⟨f, rfl⟩ : ∃ f, fuel = f + 1 := ⟨fuel - 1, by omega⟩
      obtain ⟨fsF, rest, hrun, heof⟩ :=
        pollLoopRanged_run contents start (stop - start) (by omega) oracle 0 hhon
          (by omega) (by simpa using hlen)
      have hstate : (⟨⟨contents, start + 0⟩, (contents.drop start).take 0, false,
          some (stop - start), 0⟩ : FileStream)
          = ⟨⟨contents, start⟩, [], false, some (stop - start), 0⟩ := by
        simp
      rw [hstate] at hrun
      have hpoll : poll_next (⟨⟨contents, start⟩, [], false, some (stop - start), 0⟩ :
          FileStream) oracle
          = (.chunk ((contents.drop start).take (stop - start)), fsF, rest) := by
        simpa [poll_next] using hrun
      rw [drive_chunk _ _ _ _ _ _ hpoll, drive_eof fsF rest f heof]
      simp [bytesOf, chunkData]
  refine ⟨_, hsr, hbytes, ?_⟩
  rw [hbytes]
  simp only [List.length_take, List.length_drop]
  omega

/-- Witness for C1: the window `[1, 3)` of the file `[10, 20, 30, 40]` streams
exactly the two bytes `[20, 30]`. -/
theorem stream_window_exact_witness :
    ∃ fs1,
      set_range (FileStream.new ⟨[10, 20, 30, 40], 0⟩) 1 3 SeekResult.ok
        = SetRangeResult.ok fs1 ∧
      bytesOf (drive fs1 [IoStep.ok 4, IoStep.ok 4] 1).1
        = (([10, 20, 30, 40] : List Nat).drop 1).take (3 - 1) ∧
      (bytesOf (drive fs1 [IoStep.ok 4, IoStep.ok 4] 1).1).length = 3 - 1 :=
  stream_window_exact [10, 20, 30, 40] 1 3 1 [IoStep.ok 4, IoStep.ok 4]
    (by decide) (by decide)
    (by
      intro st hst
      simp only [List.mem_cons, List.not_mem_nil, or_false] at hst
      rcases hst with h | h <;> exact ⟨4, by rw [h], by decide⟩)
    (by decide) (by decide)

/-- Claim C5: the `end_of_file` flag is monotonic and exhaustion is
absorbing — once the flag is set, `poll_next` immediately returns
end-of-sequence with the stream (flag included) completely unchanged and the
oracle unconsumed, so no further item is ever yielded. -/
theorem eof_absorbing (fs : FileStream) (oracle : List IoStep)
    (h : fs.end_of_file = true) :
    poll_next fs oracle = (PollNext.eos, fs, oracle) ∧
    ((poll_next fs oracle).2.1).end_of_file = true := by
  constructor
  · simp [poll_next, h]
  · simp [poll_next, h]

/-- Witness for C5 at a concrete exhausted stream. -/
theorem eof_absorbing_witness :
    poll_next ⟨⟨[1, 2], 2⟩, [], true, none, 0⟩ [IoStep.ok 5]
      = (PollNext.eos, ⟨⟨[1, 2], 2⟩, [], true, none, 0⟩, [IoStep.ok 5]) :=
  (eof_absorbing ⟨⟨[1, 2], 2⟩, [], true, none, 0⟩ [IoStep.ok 5] rfl).1

/-- Claim C6: in `File`'s two-phase seek, a `poll_seek` invoked while
`seek_has_started` is set ignores the request phase entirely (the result does
not depend on the `start_seek` outcome), and whenever the completion phase is
reached and returns ready — success or failure — the flag comes out cleared, so
the next seek call starts a fresh request. -/
theorem poll_seek_two_phase :
    (∀ (s1 s2 : SeekStartStep) (c : SeekCompleteStep),
        poll_seek true s1 c = poll_seek true s2 c) ∧
    (∀ (flag : Bool) (s : SeekStartStep) (n : Nat),
        flag = true ∨ s = SeekStartStep.ok →
        poll_seek flag s (SeekCompleteStep.ok n) = (SeekPoll.readyOk n, false) ∧
        poll_seek flag s SeekCompleteStep.error = (SeekPoll.readyErr, false)) := by
  constructor
  · intro s1 s2 c
    simp [poll_seek]
  · intro flag s n h
    rcases h with h | h
    · subst h
      exact ⟨rfl, rfl⟩
    · subst h
      cases flag <;> exact ⟨rfl, rfl⟩

/-- Witness for C6: a re-invocation with the flag set and a failing request
phase still completes the seek and clears the flag. -/
theorem poll_seek_two_phase_witness :
    poll_seek true SeekStartStep.error (SeekCompleteStep.ok 7) = (SeekPoll.readyOk 7, false) :=
  (poll_seek_two_phase.2 true SeekStartStep.error 7 (Or.inl rfl)).1

/-- Claim C9: `set_range` is atomic on error — a failing seek propagates the
I/O error leaving `range_len`, `buffer`, `amount_read` and `end_of_file`
exactly as they were, and `range_len` is set to `end - start` only when the
seek succeeds. -/
theorem set_range_error_atomic :
    (∀ (fs : FileStream) (start stop p : Nat),
        ∃ fs2, set_range fs start stop (SeekResult.fail p) = SetRangeResult.ioErr fs2 ∧
          fs2.range_len = fs.range_len ∧ fs2.buffer = fs.buffer ∧
          fs2.amount_read = fs.amount_read ∧ fs2.end_of_file = fs.end_of_file) ∧
    (∀ (fs : FileStream) (start stop : Nat), start ≤ stop →
        set_range fs start stop SeekResult.ok
          = SetRangeResult.ok
              { fs with src := ⟨fs.src.contents, start⟩, range_len := some (stop - start) }) := by
  constructor
  · intro fs start stop p
    exact ⟨_, rfl, rfl, rfl, rfl, rfl⟩
  · intro fs start stop h
    simp [set_range, u64checkedSub, h]

/-- Witness for C9: a successful seek on a fresh stream sets
`range_len = some (6 - 2)`. -/
theorem set_range_error_atomic_witness :
    set_range (FileStream.new ⟨[0, 1, 2, 3, 4, 5, 6], 0⟩) 2 6 SeekResult.ok
      = SetRangeResult.ok ⟨⟨[0, 1, 2, 3, 4, 5, 6], 2⟩, [], false, some 4, 0⟩ :=
  set_range_error_atomic.2 (FileStream.new ⟨[0, 1, 2, 3, 4, 5, 6], 0⟩) 2 6 (by decide)

/-- Claim C10: `set_range` computes the window length as the unsigned
subtraction `end - start`, which cannot underflow under the precondition
`start ≤ end`; for the input `start = 1, end = 0` (after a successful seek) the
subtraction underflows `u64` instead of returning an error. -/
theorem set_range_underflow :
    (∀ start stop : Nat, start ≤ stop → u64checkedSub stop start = some (stop - start)) ∧
    (∀ (fs : FileStream) (start stop : Nat), start ≤ stop →
        set_range fs start stop SeekResult.ok ≠ SetRangeResult.underflow) ∧
    set_range (FileStream.new ⟨[], 0⟩) 1 0 SeekResult.ok = SetRangeResult.underflow := by
  refine ⟨?_, ?_, ?_⟩
  · intro start stop h
    simp [u64checkedSub, h]
  · intro fs start stop h
    simp [set_range, u64checkedSub, h]
  · rfl

/-- Witness for C10: the precondition `3 ≤ 5` rules the underflow out. -/
theorem set_range_underflow_witness :
    set_range (FileStream.new ⟨[], 0⟩) 3 5 SeekResult.ok ≠ SetRangeResult.underflow :=
  set_range_underflow.2.1 (FileStream.new ⟨[], 0⟩) 3 5 (by decide)

/-- Claim C2 counterexample: chunks are not bounded by `MAX_BUFFER = 65534` —
after `set_range((0, 65535))` succeeds on a 65535-byte resource, the very first
poll yields the whole window as a single 65535-byte chunk. -/
theorem windowed_chunk_exceeds_max :
    set_range (FileStream.new ⟨List.replicate 65535 0, 0⟩) 0 65535 SeekResult.ok
      = SetRangeResult.ok fsBig ∧
    (poll_next fsBig bigOracle).1 = PollNext.chunk (List.replicate 65535 0) ∧
    MAX_BUFFER < (List.replicate 65535 (0 : Nat)).length := by
  refine ⟨?_, ?_, ?_⟩
  · simp only [set_range, u64checkedSub, FileStream.new, fsBig]
    rw [if_pos (Nat.zero_le 65535)]
  · obtain ⟨fsF, rest, hrun, -⟩ :=
      pollLoopRanged_run (List.replicate 65535 0) 0 65535
        (by simp only [List.length_replicate]; omega) bigOracle 0
        (fun st hst => by
          simp only [bigOracle, List.mem_replicate] at hst
          exact ⟨65535, hst.2, by norm_num⟩)
        (by norm_num) (by simp only [bigOracle, List.length_replicate]; omega)
    have hstate : (⟨⟨List.replicate 65535 0, 0 + 0⟩,
        ((List.replicate 65535 0).drop 0).take 0, false, some 65535, 0⟩ : FileStream)
        = fsBig := by
      simp only [fsBig, List.take_zero, Nat.add_zero]
    rw [hstate] at hrun
    have hpoll : poll_next fsBig bigOracle
        = (.chunk (((List.replicate 65535 (0 : Nat)).drop 0).take 65535), fsF, rest) := by
      rw [poll_next_ranged fsBig 65535 bigOracle rfl rfl]
      exact hrun
    rw [hpoll]
    rw [List.drop_zero, List.take_replicate, min_self]
  · rw [List.length_replicate]
    norm_num [MAX_BUFFER]

/-- Claim C2 (amended): for a windowless stream whose reads are never short,
every yielded item is a chunk of at most `MAX_BUFFER` bytes, and over a
resource of exactly `65534 * 2` bytes the stream yields exactly two
`MAX_BUFFER`-byte chunks followed by a final empty chunk and then
end-of-sequence.  (A windowed stream instead accumulates the whole window into
one chunk, which may exceed `MAX_BUFFER`.) -/
theorem stream_chunk_bound (contents : List Nat) :
    (∀ (fuel pos ar : Nat) (oracle : List IoStep), honestFull oracle →
        ∀ item ∈ (drive ⟨⟨contents, pos⟩, [], false, none, ar⟩ oracle fuel).1,
          ∃ data, item = PollNext.chunk data ∧ data.length ≤ MAX_BUFFER) ∧
    (contents.length = 2 * MAX_BUFFER →
        (drive ⟨⟨contents, 0⟩, [], false, none, 0⟩
            [IoStep.ok MAX_BUFFER, IoStep.ok MAX_BUFFER, IoStep.ok MAX_BUFFER] 4).1
          = [PollNext.chunk (contents.take MAX_BUFFER),
             PollNext.chunk ((contents.drop MAX_BUFFER).take MAX_BUFFER),
             PollNext.chunk []] ∧
        (contents.take MAX_BUFFER).length = MAX_BUFFER ∧
        ((contents.drop MAX_BUFFER).take MAX_BUFFER).length = MAX_BUFFER ∧
        (poll_next (drive ⟨⟨contents, 0⟩, [], false, none, 0⟩
            [IoStep.ok MAX_BUFFER, IoStep.ok MAX_BUFFER, IoStep.ok MAX_BUFFER] 4).2 []).1
          = PollNext.eos) := by
  constructor
  · exact fun fuel pos ar oracle hhon => drive_unranged_full_bound contents fuel pos ar oracle hhon
  · intro hlen
    have hpoll1 : poll_next (⟨⟨contents, 0⟩, [], false, none, 0⟩ : FileStream)
        [IoStep.ok MAX_BUFFER, IoStep.ok MAX_BUFFER, IoStep.ok MAX_BUFFER]
        = (.chunk ((contents.drop 0).take MAX_BUFFER),
           ⟨⟨contents, 0 + MAX_BUFFER⟩, [], false, none, 0⟩,
           [IoStep.ok MAX_BUFFER, IoStep.ok MAX_BUFFER]) := by
      simp only [poll_next]
      rw [if_neg (by simp)]
      exact pollLoopUnranged_step_full contents 0 0 MAX_BUFFER _ (le_refl _) (by omega)
    have hpoll2 : poll_next (⟨⟨contents, 0 + MAX_BUFFER⟩, [], false, none, 0⟩ : FileStream)
        [IoStep.ok MAX_BUFFER, IoStep.ok MAX_BUFFER]
        = (.chunk ((contents.drop (0 + MAX_BUFFER)).take MAX_BUFFER),
           ⟨⟨contents, 0 + MAX_BUFFER + MAX_BUFFER⟩, [], false, none, 0⟩,
           [IoStep.ok MAX_BUFFER]) := by
      simp only [poll_next]
      rw [if_neg (by simp)]
      exact pollLoopUnranged_step_full contents (0 + MAX_BUFFER) 0 MAX_BUFFER _ (le_refl _)
        (by omega)
    have hpoll3 : poll_next
        (⟨⟨contents, 0 + MAX_BUFFER + MAX_BUFFER⟩, [], false, none, 0⟩ : FileStream)
        [IoStep.ok MAX_BUFFER]
        = (.chunk [], ⟨⟨contents, 0 + MAX_BUFFER + MAX_BUFFER⟩, [], true, none, 0⟩, []) := by
      simp only [poll_next]
      rw [if_neg (by simp)]
      exact pollLoopUnranged_step_eof contents _ 0 MAX_BUFFER _ (by omega)
    have hdrv : drive (⟨⟨contents, 0⟩, [], false, none, 0⟩ : FileStream)
        [IoStep.ok MAX_BUFFER, IoStep.ok MAX_BUFFER, IoStep.ok MAX_BUFFER] 4
        = ([PollNext.chunk ((contents.drop 0).take MAX_BUFFER),
            PollNext.chunk ((contents.drop (0 + MAX_BUFFER)).take MAX_BUFFER),
            PollNext.chunk []],
           ⟨⟨contents, 0 + MAX_BUFFER + MAX_BUFFER⟩, [], true, none, 0⟩) := by
      rw [show (4 : Nat) = 3 + 1 from rfl, drive_chunk _ _ _ _ _ _ hpoll1,
        show (3 : Nat) = 2 + 1 from rfl, drive_chunk _ _ _ _ _ _ hpoll2,
        show (2 : Nat) = 1 + 1 from rfl, drive_chunk _ _ _ _ _ _ hpoll3,
        drive_eof _ _ _ rfl]
    rw [hdrv]
    refine ⟨by simp, ?_, ?_, by simp [poll_next]⟩
    · simp only [List.length_take, List.length_drop]
      omega
    · simp only [List.length_take, List.length_drop]
      omega

/-- Witness for C2 (amended) at a concrete resource of `65534 * 2` zero
bytes. -/
theorem stream_chunk_bound_witness :
    (drive ⟨⟨List.replicate (2 * MAX_BUFFER) 0, 0⟩, [], false, none, 0⟩
        [IoStep.ok MAX_BUFFER, IoStep.ok MAX_BUFFER, IoStep.ok MAX_BUFFER] 4).1
      = [PollNext.chunk ((List.replicate (2 * MAX_BUFFER) 0).take MAX_BUFFER),
         PollNext.chunk (((List.replicate (2 * MAX_BUFFER) 0).drop MAX_BUFFER).take MAX_BUFFER),
         PollNext.chunk []] :=
  ((stream_chunk_bound (List.replicate (2 * MAX_BUFFER) 0)).2 (by simp)).1

/-- Claim C3 counterexample: an I/O error item is not terminal — after a read
error is yielded, a later `poll_next` on the same stream yields a further data
chunk. -/
theorem error_then_chunk_counterexample :
    (drive (FileStream.new ⟨[7], 0⟩) [IoStep.error, IoStep.ok 1, IoStep.ok 1] 2).1
      = [PollNext.ioError, PollNext.chunk [7]] := by
  decide

/-- Claim C3 (amended): when the oracle reports an I/O error on the read a
`poll_next` step performs, the step yields an error item immediately; but the
error is not latched — the stream state (in particular `end_of_file`) is
completely unchanged, so subsequent `poll_next` calls resume reading and may
yield further items. -/
theorem read_error_not_latched (fs : FileStream) (rest : List IoStep)
    (heof : fs.end_of_file = false)
    (hguard : match fs.range_len with
      | some r => fs.amount_read < r
      | none => fs.buffer.length < MAX_BUFFER) :
    poll_next fs (IoStep.error :: rest) = (PollNext.ioError, fs, rest) := by
  simp only [poll_next]
  rw [if_neg (by simp [heof])]
  cases h : fs.range_len with
  | none =>
    simp only [h] at hguard
    simp only [pollLoopUnranged]
    rw [if_pos ⟨hguard, heof⟩]
  | some r =>
    simp only [h] at hguard
    simp only [pollLoopRanged]
    rw [if_pos ⟨hguard, heof⟩]

/-- Witness for C3 (amended): an error on a fresh windowless stream yields the
error item and leaves the stream untouched. -/
theorem read_error_not_latched_witness :
    poll_next (FileStream.new ⟨[1], 0⟩) [IoStep.error]
      = (PollNext.ioError, FileStream.new ⟨[1], 0⟩, []) :=
  read_error_not_latched (FileStream.new ⟨[1], 0⟩) [] rfl
    (by
      show ([] : List Nat).length < MAX_BUFFER
      norm_num [MAX_BUFFER])

/-- Claim C7: windowless production-step semantics — (1) each read requests at
most `MAX_BUFFER` bytes; (2) when the zero-byte read is the only read of the
step (end of file reached with an empty buffer), the step yields an empty
chunk, sets `end_of_file`, and every subsequent poll is end-of-sequence;
(3) a short read before end of file still yields everything collected in that
step (a non-empty chunk) and the exhaustion surfaces only on the next step;
(4) if the first read of a step transfers at least one byte, the step never
yields an empty chunk. -/
theorem stream_unranged_step_semantics :
    (∀ (src : Source) (n : Nat), (readFromSource src MAX_BUFFER n).1 ≤ MAX_BUFFER) ∧
    (∀ (contents : List Nat) (pos ar n : Nat) (rest : List IoStep),
        contents.length ≤ pos →
        poll_next ⟨⟨contents, pos⟩, [], false, none, ar⟩ (IoStep.ok n :: rest)
          = (PollNext.chunk [], ⟨⟨contents, pos⟩, [], true, none, ar⟩, rest) ∧
        ∀ oracle2 : List IoStep,
          poll_next ⟨⟨contents, pos⟩, [], true, none, ar⟩ oracle2
            = (PollNext.eos, ⟨⟨contents, pos⟩, [], true, none, ar⟩, oracle2)) ∧
    (∀ (contents : List Nat) (pos ar n n2 : Nat) (rest : List IoStep),
        pos < contents.length → contents.length - pos < MAX_BUFFER →
        contents.length - pos ≤ n →
        poll_next ⟨⟨contents, pos⟩, [], false, none, ar⟩
            (IoStep.ok n :: IoStep.ok n2 :: rest)
          = (PollNext.chunk (contents.drop pos),
             ⟨⟨contents, contents.length⟩, [], true, none, ar⟩, rest) ∧
        contents.drop pos ≠ []) ∧
    (∀ (fs : FileStream) (n : Nat) (oracle rest2 : List IoStep) (data : List Nat)
        (fs2 : FileStream),
        fs.end_of_file = false →
        0 < (readFromSource fs.src MAX_BUFFER n).1 →
        pollLoopUnranged fs (IoStep.ok n :: oracle) = (.chunk data, fs2, rest2) →
        data ≠ []) := by
  refine ⟨?_, ?_, ?_, ?_⟩
  · intro src n
    exact le_trans (min_le_left _ _) (min_le_right _ _)
  · intro contents pos ar n rest hle
    constructor
    · simp only [poll_next]
      rw [if_neg (by simp)]
      exact pollLoopUnranged_step_eof contents pos ar n rest hle
    · intro oracle2
      simp [poll_next]
  · intro contents pos ar n n2 rest hpos hshort hn
    constructor
    · simp only [poll_next]
      rw [if_neg (by simp)]
      exact pollLoopUnranged_step_short contents pos ar n n2 rest hpos hshort hn
    · have : 0 < (contents.drop pos).length := by
        simp only [List.length_drop]
        omega
      intro hnil
      rw [hnil] at this
      simp at this
  · intro fs n oracle rest2 data fs2 heof hs hloop
    simp only [pollLoopUnranged] at hloop
    split_ifs at hloop with hg
    · have hlen := pollLoopUnranged_chunk_len oracle _ _ _ _ hloop
      have hbuf : (unrangedStep fs n).buffer.length
          = fs.buffer.length + (readFromSource fs.src MAX_BUFFER n).2.1.length := by
        simp only [unrangedStep]
        rw [if_pos hs]
        simp
      have hdatalen : (readFromSource fs.src MAX_BUFFER n).2.1.length
          = (readFromSource fs.src MAX_BUFFER n).1 := by
        simp only [readFromSource, List.length_take, List.length_drop]
        omega
      intro hnil
      rw [hnil] at hlen
      rw [hbuf, hdatalen] at hlen
      simp at hlen
      omega
    · have hfull : ¬ fs.buffer.length < MAX_BUFFER := by
        intro hlt
        exact hg ⟨hlt, heof⟩
      have hdata : fs.buffer = data := by
        obtain ⟨h1, -, -⟩ := Prod.mk.injEq .. ▸ hloop
        simpa using h1
      intro hnil
      rw [hnil] at hdata
      rw [hdata] at hfull
      simp [MAX_BUFFER] at hfull

/-- Witness for C7 at a concrete empty resource: the only read of the step is
the zero-byte read, so the empty chunk legitimately signals end of file. -/
theorem stream_unranged_step_semantics_witness :
    poll_next ⟨⟨[], 0⟩, [], false, none, 0⟩ [IoStep.ok 1]
      = (PollNext.chunk [], ⟨⟨[], 0⟩, [], true, none, 0⟩, []) :=
  (stream_unranged_step_semantics.2.1 [] 0 0 1 [] (by decide)).1

/-- Claim C8 counterexample: `get_size` is not a value fixed when the resource
was bound — it queries the filesystem (`self.path.size()`) on every call, so
two calls on the same bound `File` straddling a filesystem change return
different sizes. -/
theorem get_size_restat_counterexample :
    FileModel.get_size (fun _ => 100) ⟨"a.txt", none, false⟩ = 100 ∧
    FileModel.get_size (fun _ => 50) ⟨"a.txt", none, false⟩ = 50 ∧
    (100 : Nat) ≠ 50 := by
  exact ⟨rfl, rfl, by decide⟩

/-- Claim C8 (amended): `get_path` and `get_mime` are pure accessors of stored
fields, while `get_size` delegates to `path.size()` — a fresh filesystem query
on every call, returning the size the filesystem reports at call time instead
of a value cached at binding. -/
theorem file_accessors :
    (∀ f : FileModel, f.get_path = f.path) ∧
    (∀ f : FileModel, f.get_mime = f.mime) ∧
    (∀ (fsS : FsState) (f : FileModel), FileModel.get_size fsS f = fsS f.path) := by
  exact ⟨fun _ => rfl, fun _ => rfl, fun _ _ => rfl⟩

/-- Claim C4 counterexample: on a windowed stream (window length 10, resource
size 100) the `Responder` still emits `Content-Length: 100`, the full resource
size, not the window length required for a 206 partial response. -/
theorem respond_content_length_counterexample :
    (FileStream.respond_with_builder ⟨none, none, false, 100⟩ (some 10) ⟨none, none, []⟩ true).headers
      = [("accept-ranges", "bytes"), ("content-type", "text/plain; charset=utf-8"),
         ("content-length", "100")] ∧
    ("100" : String) ≠ "10" := by
  exact ⟨rfl, by decide⟩

/-- Claim C4 (amended): the `FileStream` responder always appends
`Accept-Ranges: bytes`, a `Content-Type` taken from the stored resource MIME or
else the path MIME or else the directory/plain-text fallback, and a
`Content-Length` equal to the full resource size (`get_size`) — regardless of
any byte window set on the stream (the `range_len` argument is not consulted). -/
theorem respond_headers (meta : ResourceMeta) (range_len : Option Nat)
    (b : Builder) (fileOk : Bool) :
    (FileStream.respond_with_builder meta range_len b fileOk).headers
      = (if fileOk then b else (b.status 500).body "Unable to read file").headers
        ++ [("accept-ranges", "bytes"),
            ("content-type",
              meta.mime.getD (meta.pathMime.getD
                (if meta.isDir then "text/html; charset=utf-8"
                 else "text/plain; charset=utf-8"))),
            ("content-length", toString meta.size)] := by
  cases fileOk <;>
    cases hm : meta.mime <;>
      cases hp : meta.pathMime <;>
        simp [FileStream.respond_with_builder, resolveMime, Builder.header, Builder.status,
          Builder.body, hm, hp]

end Saphir
